import Mathlib

/-!
# carbon_footprint.cpp : parsing and aggregation

A shallow embedding of `src/carbon_footprint.cpp`.

* `std::string` is a list of characters (`CppString`); a file and an
  `std::istringstream` are input streams (`IStream`) over such a list, with the
  `eofbit` and `failbit` of the C++ stream, and `getline` follows
  `std::getline(stream, str, delim)`.
* `double` is `Double`: a finite value is kept as the rational number it denotes,
  next to the two infinities and NaN. Arithmetic on finite values is exact: the
  rounding of IEEE-754 and the sign of zero are not represented. The square root
  that `std::sqrt` returns is kept as the rational under the root
  (`Double.Root.sqrtOf`), the real number it denotes being `Double.Root.toReal`.
* `std::map<std::string, std::vector<EmissionData>>` is an association list with
  unique keys, read with `find` and written with `pushBack`
  (`data[country].push_back(...)`). The order in which `std::map` enumerates its
  keys is not represented in the table; the `std::set` of the keys that `main`
  prints is kept in increasing order (`countrySet`).
* An exception that no handler catches ends the process (`Run.terminated`).
-/

namespace CarbonFootprint

/-! ## Strings and streams -/

/-- The type `std::string`. -/
abbrev CppString := List Char

/-- An input stream (`std::ifstream`, `std::istringstream`, `std::cin`): the
characters not yet extracted and the two state bits the program depends on. -/
structure IStream where
  buf : List Char
  eofbit : Bool
  failbit : Bool
deriving DecidableEq

/-- A freshly opened stream over `s`. -/
def IStream.open (s : List Char) : IStream := ⟨s, false, false⟩

/-- The member `good()`: no state bit is set. -/
def IStream.good (s : IStream) : Bool := !s.eofbit && !s.failbit

/-- The extraction loop of `std::getline`: the characters before the first
`delim`, and what follows that delimiter (`none` when the end of the input was
reached first). -/
def extract (delim : Char) : List Char → List Char × Option (List Char)
  | [] => ([], none)
  | c :: cs =>
    if c = delim then ([], some cs)
    else ((c :: (extract delim cs).1), (extract delim cs).2)

/-- The call `std::getline(s, str, delim)`. When the stream is not `good()` the
sentry fails: `failbit` is set and `str` keeps its content. Otherwise `str` is
erased and filled up to the delimiter, which is extracted and dropped; reaching
the end of the input sets `eofbit`, and `failbit` too when nothing was
extracted. -/
def getline (s : IStream) (str : CppString) (delim : Char) : IStream × CppString :=
  if s.good then
    match extract delim s.buf with
    | (f, some rest) => (⟨rest, false, false⟩, f)
    | (f, none) => (⟨[], true, f.isEmpty⟩, f)
  else (⟨s.buf, s.eofbit, true⟩, str)

/-! ## Doubles -/

/-- The type `double`, finite values read exactly. -/
inductive Double where
  | fin (q : ℚ)
  | pinf
  | ninf
  | nan
deriving DecidableEq

namespace Double

/-- Negation. -/
def neg : Double → Double
  | fin q => fin (-q)
  | pinf => ninf
  | ninf => pinf
  | nan => nan

/-- Addition `a + b`. -/
def add : Double → Double → Double
  | fin a, fin b => fin (a + b)
  | nan, _ => nan
  | _, nan => nan
  | pinf, ninf => nan
  | ninf, pinf => nan
  | pinf, _ => pinf
  | _, pinf => pinf
  | ninf, _ => ninf
  | _, ninf => ninf

/-- Subtraction `a - b`. -/
def sub (a b : Double) : Double := add a (neg b)

/-- The call `std::pow(a, 2)`. -/
def pow2 : Double → Double
  | fin a => fin (a ^ 2)
  | pinf => pinf
  | ninf => pinf
  | nan => nan

/-- The comparison `a < b`; false as soon as one side is NaN. -/
def lt : Double → Double → Bool
  | fin a, fin b => decide (a < b)
  | nan, _ => false
  | _, nan => false
  | ninf, ninf => false
  | ninf, _ => true
  | _, ninf => false
  | pinf, _ => false
  | _, pinf => true

/-- The comparison `a > b`. -/
def gt (a b : Double) : Bool := lt b a

/-- The division `a / n` of a double by a `size_t` converted to double. A zero
count divides zero into NaN and anything else into an infinity. -/
def divSize : Double → Nat → Double
  | nan, _ => nan
  | fin a, n =>
    if n = 0 then (if a = 0 then nan else if 0 < a then pinf else ninf)
    else fin (a / (n : ℚ))
  | pinf, _ => pinf
  | ninf, _ => ninf

/-- The value of a double that `std::sqrt` returns, read exactly. The square
root of a rational is in general not rational: `sqrtOf q` is the number `√q`,
for `q` not negative. -/
inductive Root where
  | sqrtOf (q : ℚ)
  | pinf
  | nan
deriving DecidableEq

/-- The call `std::sqrt(a)`: NaN for NaN and for a negative argument, infinity
for infinity, the square root otherwise. -/
def sqrt : Double → Root
  | fin q => if 0 ≤ q then Root.sqrtOf q else Root.nan
  | pinf => Root.pinf
  | ninf => Root.nan
  | nan => Root.nan

end Double

/-- The real number a finite result of `std::sqrt` denotes. -/
noncomputable def Double.Root.toReal : Double.Root → Option ℝ
  | Double.Root.sqrtOf q => some (Real.sqrt (q : ℝ))
  | _ => none

/-! ## std::stod -/

/-- The exceptions `std::stod` throws. -/
inductive Exception where
  | invalid_argument
  | out_of_range
deriving DecidableEq

deriving instance DecidableEq for Except

/-- The C function `isspace` in the "C" locale. -/
def isspace (c : Char) : Bool :=
  c = ' ' || c = '\t' || c = '\n' || c = '\r' || c.toNat = 11 || c.toNat = 12

/-- Drop the leading white space, as `strtod` does first. -/
def skipSpace : List Char → List Char
  | [] => []
  | c :: cs => if isspace c then skipSpace cs else c :: cs

/-- The value of a decimal digit. -/
def decDigit (c : Char) : Option Nat :=
  if 48 ≤ c.toNat ∧ c.toNat ≤ 57 then some (c.toNat - 48) else none

/-- The value of a hexadecimal digit. -/
def hexDigit (c : Char) : Option Nat :=
  if 48 ≤ c.toNat ∧ c.toNat ≤ 57 then some (c.toNat - 48)
  else if 97 ≤ c.toNat ∧ c.toNat ≤ 102 then some (c.toNat - 87)
  else if 65 ≤ c.toNat ∧ c.toNat ≤ 70 then some (c.toNat - 55)
  else none

/-- The longest run of digits at the head of the input: the number read so far
(`acc`, in base `base`), how many digits were read (`cnt`), and the rest. -/
def digits (base : Nat) (val : Char → Option Nat) (acc cnt : Nat) :
    List Char → Nat × Nat × List Char
  | [] => (acc, cnt, [])
  | c :: cs =>
    match val c with
    | some d => digits base val (acc * base + d) (cnt + 1) cs
    | none => (acc, cnt, c :: cs)

/-- A mantissa `digits [. digits]` with at least one digit, in base `base`:
its value and the rest of the input, or `none` when there is no digit. -/
def mantissa (base : Nat) (val : Char → Option Nat) (cs : List Char) :
    Option (ℚ × List Char) :=
  match digits base val 0 0 cs with
  | (ip, ni, rest) =>
    match rest with
    | '.' :: r =>
      (match digits base val 0 0 r with
       | (fp, nf, rest2) =>
         if ni + nf = 0 then none
         else some ((ip : ℚ) + (fp : ℚ) / ((base ^ nf : Nat) : ℚ), rest2))
    | _ => if ni = 0 then none else some ((ip : ℚ), rest)

/-- An optional exponent part: the marker (`lo` or `up`), an optional sign and
at least one decimal digit. Anything else is no exponent, of value 0. -/
def exponent (lo up : Char) : List Char → Int
  | [] => 0
  | c :: r =>
    if c = lo ∨ c = up then
      match r with
      | '-' :: r2 =>
        (match digits 10 decDigit 0 0 r2 with
         | (v, n, _) => if n = 0 then 0 else - (v : Int))
      | '+' :: r2 =>
        (match digits 10 decDigit 0 0 r2 with
         | (v, n, _) => if n = 0 then 0 else (v : Int))
      | _ =>
        (match digits 10 decDigit 0 0 r with
         | (v, n, _) => if n = 0 then 0 else (v : Int))
    else 0

/-- The product `m * base ^ e`. -/
def scale (m : ℚ) (base : Nat) (e : Int) : ℚ :=
  if 0 ≤ e then m * ((base ^ e.toNat : Nat) : ℚ)
  else m / ((base ^ (-e).toNat : Nat) : ℚ)

/-- A decimal floating-point numeral at the head of the input. -/
def decimal (cs : List Char) : Option ℚ :=
  match mantissa 10 decDigit cs with
  | some (m, rest) => some (scale m 10 (exponent 'e' 'E' rest))
  | none => none

/-- A hexadecimal floating-point numeral (after its `0x`) at the head of the
input. -/
def hexadecimal (cs : List Char) : Option ℚ :=
  match mantissa 16 hexDigit cs with
  | some (m, rest) => some (scale m 2 (exponent 'p' 'P' rest))
  | none => none

/-- Whether the input starts with the word `w` (given in lower case), letter
case ignored. -/
def startsWithNoCase : List Char → List Char → Bool
  | [], _ => true
  | _ :: _, [] => false
  | w :: ws, c :: cs => (c = w || c.toNat + 32 = w.toNat) && startsWithNoCase ws cs

/-- What `strtod` finds after the white space and the sign: `none` when no
conversion can be performed. -/
def unsignedValue (cs : List Char) : Option Double :=
  if startsWithNoCase ['i', 'n', 'f'] cs then some Double.pinf
  else if startsWithNoCase ['n', 'a', 'n'] cs then some Double.nan
  else
    match cs with
    | '0' :: x :: r =>
      if x = 'x' ∨ x = 'X' then
        match hexadecimal r with
        | some q => some (Double.fin q)
        | none => (decimal cs).map Double.fin
      else (decimal cs).map Double.fin
    | _ => (decimal cs).map Double.fin

/-- The result of the C function `strtod`. -/
inductive Strtod where
  | noConversion
  | rangeError
  | value (d : Double)
deriving DecidableEq

/-- Where the magnitude of a finite result leaves the range of a double, as
glibc decides it on x86-64. Overflow: from `2^1024 - 2^970` on, the values that
round to infinity. Underflow: a result that is tiny and inexact, tininess being
detected after rounding, so a magnitude below `2^(-1022) - 2^(-1076)` (what
rounds to less than `2^(-1022)` at the precision of a normal double) that is
not a multiple of `2^(-1074)`. Both set `errno` to `ERANGE`. -/
def outOfRange (q : ℚ) : Bool :=
  decide (((2 ^ 1024 - 2 ^ 970 : Nat) : ℚ) ≤ |q|) ||
    (decide (|q| < 1 / ((2 ^ 1022 : Nat) : ℚ) - 1 / ((2 ^ 1076 : Nat) : ℚ)) &&
      decide ((|q| * ((2 ^ 1074 : Nat) : ℚ)).den ≠ 1))

/-- The C function `strtod` on the characters of a string: white space, an
optional sign, then `inf`, `nan`, a hexadecimal or a decimal numeral; the
characters after the numeral are left unread. -/
def strtod (s : CppString) : Strtod :=
  let signed : Bool × List Char :=
    match skipSpace s with
    | '-' :: r => (true, r)
    | '+' :: r => (false, r)
    | r => (false, r)
  match unsignedValue signed.2 with
  | none => Strtod.noConversion
  | some (Double.fin q) =>
    if outOfRange q then Strtod.rangeError
    else Strtod.value (Double.fin (if signed.1 then -q else q))
  | some d => Strtod.value (if signed.1 then Double.neg d else d)

/-- The call `std::stod(s)`: `std::invalid_argument` when `strtod` converts
nothing, `std::out_of_range` when it reports `ERANGE`, its value otherwise. The
position where the numeral ends is not looked at. -/
def stod (s : CppString) : Except Exception Double :=
  match strtod s with
  | Strtod.noConversion => Except.error Exception.invalid_argument
  | Strtod.rangeError => Except.error Exception.out_of_range
  | Strtod.value d => Except.ok d

/-! ## The table of countries -/

/-- The struct `EmissionData`. -/
structure EmissionData where
  year : CppString
  emissions : Double
deriving DecidableEq

/-- The type `std::map<std::string, std::vector<EmissionData>>`. -/
abbrev CountryTable := List (CppString × List EmissionData)

/-- The lookup `data.find(country)`: the vector stored under the key, `none`
for `data.end()`. -/
def find (country : CppString) : CountryTable → Option (List EmissionData)
  | [] => none
  | (k, v) :: rest => if k = country then some v else find country rest

/-- The statement `data[country].push_back(r)`: `operator[]` creates the key
with an empty vector when it is absent, then the record goes to the end of the
vector. -/
def pushBack (country : CppString) (r : EmissionData) : CountryTable → CountryTable
  | [] => [(country, [r])]
  | (k, v) :: rest =>
    if k = country then (k, v ++ [r]) :: rest
    else (k, v) :: pushBack country r rest

/-! ## parseCSV -/

/-- How a piece of the program ends: it returns, or an exception that nothing
catches ends the process (`std::terminate`). `outOfFuel` is the loop bound of
the embedding running out, which `parseCSV` never reaches. -/
inductive Run (α : Type) where
  | returned (a : α)
  | terminated (e : Exception)
  | outOfFuel
deriving DecidableEq

/-- The fields the loop body of `parseCSV` reads from a line: `country`, `code`
and `year` by one `getline` each on the `std::istringstream` of the line, then
`co2` by three more, every variable starting empty. -/
structure RowFields where
  country : CppString
  code : CppString
  year : CppString
  co2 : CppString
deriving DecidableEq

/-- Lines 69 to 77: the six `getline(ss, _, ',')` calls on a line. -/
def readFields (line : CppString) : RowFields :=
  let ss := IStream.open line
  let r1 := getline ss [] ','
  let r2 := getline r1.1 [] ','
  let r3 := getline r2.1 [] ','
  let c1 := getline r3.1 [] ','
  let c2 := getline c1.1 c1.2 ','
  let c3 := getline c2.1 c2.2 ','
  ⟨r1.2, r2.2, r3.2, c3.2⟩

/-- Lines 69 to 86: the body of the `while` loop of `parseCSV` on one line.
`std::invalid_argument` is caught and the row is skipped; `std::out_of_range`
has no handler. -/
def processRow (line : CppString) (data : CountryTable) : Run CountryTable :=
  let f := readFields line
  if !f.country.isEmpty && !f.year.isEmpty && !f.co2.isEmpty then
    match stod f.co2 with
    | Except.ok emissions => Run.returned (pushBack f.country ⟨f.year, emissions⟩ data)
    | Except.error Exception.invalid_argument => Run.returned data
    | Except.error Exception.out_of_range => Run.terminated Exception.out_of_range
  else Run.returned data

/-- The loop `while (getline(file, line)) { ... }` of `parseCSV`; the condition
is true while `failbit` is clear. `fuel` bounds the number of iterations. -/
def parseLoop : Nat → IStream → CppString → CountryTable → Run CountryTable
  | 0, _, _, _ => Run.outOfFuel
  | fuel + 1, file, line, data =>
    let r := getline file line '\n'
    if r.1.failbit then Run.returned data
    else
      match processRow r.2 data with
      | Run.returned data2 => parseLoop fuel r.1 r.2 data2
      | Run.terminated e => Run.terminated e
      | Run.outOfFuel => Run.outOfFuel

/-- The function `parseCSV(filename, data)`, on the content of the file (`none`
when the file cannot be opened: the table is left as it is). The header line is
read and dropped, then the loop runs; each iteration that goes on extracts at
least one character, so the length of the file bounds the iterations. -/
def parseCSV (file : Option (List Char)) (data : CountryTable) : Run CountryTable :=
  match file with
  | none => Run.returned data
  | some content =>
    let h := getline (IStream.open content) [] '\n'
    parseLoop (content.length + 1) h.1 [] data

/-! ## analyzeCountry -/

/-- The local variables of the first loop of `analyzeCountry`. -/
structure Scan where
  total : Double
  max_emission : Double
  max_year : CppString
  min_emission : Double
  min_year : CppString
deriving DecidableEq

/-- Line 133 and 134: `total = 0, max_emission = -1, min_emission = 1e9` and two
empty strings. -/
def Scan.init : Scan := ⟨Double.fin 0, Double.fin (-1), [], Double.fin 1000000000, []⟩

/-- Lines 140 to 148: the body of the first loop, on one record. -/
def Scan.step (s : Scan) (record : EmissionData) : Scan :=
  let s1 : Scan := { s with total := Double.add s.total record.emissions }
  let s2 : Scan :=
    if Double.gt record.emissions s1.max_emission then
      { s1 with max_emission := record.emissions, max_year := record.year }
    else s1
  if Double.lt record.emissions s2.min_emission then
    { s2 with min_emission := record.emissions, min_year := record.year }
  else s2

/-- The first loop of `analyzeCountry`. -/
def scan (emissions : List EmissionData) : Scan := emissions.foldl Scan.step Scan.init

/-- The statistics `analyzeCountry` displays and hands to `generateReport`. -/
structure Statistics where
  average : Double
  stddev : Double.Root
  max_emission : Double
  max_year : CppString
  min_emission : Double
  min_year : CppString
deriving DecidableEq

/-- Line 151: `average = total / emissions.size()`. -/
def average (emissions : List EmissionData) : Double :=
  Double.divSize (scan emissions).total emissions.length

/-- Lines 152 to 155: the sum of `std::pow(record.emissions - average, 2)`. -/
def sumSquares (average : Double) (emissions : List EmissionData) : Double :=
  emissions.foldl (fun v record => Double.add v (Double.pow2 (Double.sub record.emissions average)))
    (Double.fin 0)

/-- The argument `variance / emissions.size()` of `std::sqrt` on line 156. -/
def sqrtArgument (emissions : List EmissionData) : Double :=
  Double.divSize (sumSquares (average emissions) emissions) emissions.length

/-- Lines 133 to 156 of `analyzeCountry` on the vector found; the standard
deviation is `std::sqrt(variance / emissions.size())`. -/
def statistics (emissions : List EmissionData) : Statistics :=
  let s := scan emissions
  ⟨average emissions, Double.sqrt (sqrtArgument emissions),
    s.max_emission, s.max_year, s.min_emission, s.min_year⟩

/-- What `generateReport` writes to `report.txt`: the title, one row per
record, the statistics block. -/
structure Report where
  country : CppString
  rows : List EmissionData
  stats : Statistics
deriving DecidableEq

/-- What the program prints, on `std::cout` or `std::cerr`. -/
inductive Event where
  | welcome
  | downloadFailed
  | cannotOpenDataset
  | noData
  | availableCountries (countries : List CppString)
  | prompt
  | countryNotFound
  | tableHeader (country : CppString)
  | tableRow (record : EmissionData)
  | statisticsBlock (country : CppString) (stats : Statistics)
  | cannotCreateReport
  | reportSaved
  | thanks
deriving DecidableEq

/-- What the program can change outside itself: the console and the file
`report.txt` (`none` while the file does not exist). -/
structure World where
  console : List Event
  report : Option Report
deriving DecidableEq

/-- The function `generateReport`; `writable` tells whether `report.txt` can be
opened for writing. -/
def generateReport (writable : Bool) (country : CppString) (emissions : List EmissionData)
    (stats : Statistics) (w : World) : World :=
  if writable then
    ⟨w.console ++ [Event.reportSaved], some ⟨country, emissions, stats⟩⟩
  else ⟨w.console ++ [Event.cannotCreateReport], w.report⟩

/-- The function `analyzeCountry(country, data)`. -/
def analyzeCountry (writable : Bool) (country : CppString) (data : CountryTable)
    (w : World) : World :=
  match find country data with
  | none => ⟨w.console ++ [Event.countryNotFound], w.report⟩
  | some emissions =>
    let stats := statistics emissions
    let w1 : World :=
      ⟨w.console ++ [Event.tableHeader country] ++ emissions.map Event.tableRow
        ++ [Event.statisticsBlock country stats], w.report⟩
    generateReport writable country emissions stats w1

/-! ## main -/

/-- The comparison `a < b` of two `std::string`: the first character in which
they differ decides, and a string is smaller than the strings it starts. -/
def strLess : CppString → CppString → Bool
  | [], [] => false
  | [], _ :: _ => true
  | _ :: _, [] => false
  | a :: as, b :: bs =>
    if a.toNat < b.toNat then true
    else if b.toNat < a.toNat then false
    else strLess as bs

/-- The call `countries.insert(k)` on a `std::set<std::string>`, which is kept
as the list of its elements in increasing order. -/
def setInsert (k : CppString) : List CppString → List CppString
  | [] => [k]
  | x :: xs =>
    if strLess k x then k :: x :: xs
    else if strLess x k then x :: setInsert k xs
    else x :: xs

/-- Lines 183 to 186: the set of the keys of the table. What `displayCountries`
prints is this set in increasing order, whatever the order of the insertions. -/
def countrySet (data : CountryTable) : List CppString :=
  data.foldl (fun countries entry => setInsert entry.1 countries) []

/-- What `main` gets from outside: whether `downloadDataset` succeeds, the
content of the dataset file as `parseCSV` finds it, the characters on standard
input, and whether `report.txt` can be opened for writing. -/
structure Env where
  downloadOk : Bool
  dataset : Option (List Char)
  stdin : List Char
  reportWritable : Bool

/-- The function `main`: its exit code and what it leaves behind. -/
def main (env : Env) (w : World) : Run (Nat × World) :=
  let w1 : World := ⟨w.console ++ [Event.welcome], w.report⟩
  if !env.downloadOk then
    Run.returned (1, ⟨w1.console ++ [Event.downloadFailed], w1.report⟩)
  else
    let w2 : World :=
      match env.dataset with
      | none => ⟨w1.console ++ [Event.cannotOpenDataset], w1.report⟩
      | some _ => w1
    match parseCSV env.dataset [] with
    | Run.terminated e => Run.terminated e
    | Run.outOfFuel => Run.outOfFuel
    | Run.returned data =>
      if data.isEmpty then
        Run.returned (1, ⟨w2.console ++ [Event.noData], w2.report⟩)
      else
        let w3 : World :=
          ⟨w2.console ++ [Event.availableCountries (countrySet data), Event.prompt], w2.report⟩
        let country := (getline (IStream.open env.stdin) [] '\n').2
        let w4 := analyzeCountry env.reportWritable country data w3
        Run.returned (0, ⟨w4.console ++ [Event.thanks], w4.report⟩)

/-! ## The description the parser is compared with -/

/-- Put a character in front of the first piece of a split. -/
def consHead (c : Char) : List CppString → List CppString
  | [] => [[c]]
  | f :: fs => (c :: f) :: fs

/-- The naive split of a line on a delimiter: the fields between the
delimiters, one more than there are delimiters. -/
def splitOn (delim : Char) : List Char → List CppString
  | [] => [[]]
  | c :: cs => if c = delim then [] :: splitOn delim cs else consHead c (splitOn delim cs)

/-- The lines of a file: the pieces between the newline characters, a last piece
without a newline counting only when it is not empty. -/
def splitLines : List Char → List CppString
  | [] => []
  | c :: cs => if c = '\n' then [] :: splitLines cs else consHead c (splitLines cs)

/-- The data rows of a file: its lines after the header line. -/
def dataLines (content : List Char) : List CppString := (splitLines content).tail

/-- Which fields of a split line end up in `country`, `code`, `year` and `co2`:
the first three fields, and for `co2` the sixth field, or the last field when
the line has only four or five fields. A field that is not there is empty. -/
def selectFields : List CppString → RowFields
  | [] => ⟨[], [], [], []⟩
  | [a] => ⟨a, [], [], []⟩
  | [a, b] => ⟨a, b, [], []⟩
  | [a, b, c] => ⟨a, b, c, []⟩
  | [a, b, c, d] => ⟨a, b, c, d⟩
  | [a, b, c, _, e] => ⟨a, b, c, e⟩
  | a :: b :: c :: _ :: _ :: f :: _ => ⟨a, b, c, f⟩

/-- What becomes of a data row. -/
inductive RowClass where
  | accepted (country : CppString) (record : EmissionData)
  | dropped
  | aborts
deriving DecidableEq

/-- The rule of acceptance, on the fields of the split line: a row is dropped
when its country, year or numeric field is empty or `std::stod` finds no number
in the numeric field, accepted with the value `std::stod` gives, and it aborts
the run when `std::stod` reports a value out of range. -/
def classify (line : CppString) : RowClass :=
  let f := selectFields (splitOn ',' line)
  if f.country = [] ∨ f.year = [] ∨ f.co2 = [] then RowClass.dropped
  else
    match stod f.co2 with
    | Except.ok v => RowClass.accepted f.country ⟨f.year, v⟩
    | Except.error Exception.invalid_argument => RowClass.dropped
    | Except.error Exception.out_of_range => RowClass.aborts

/-- The accepted rows among some lines, as pairs of country and record, in the
order of the lines. -/
def acceptedRows : List CppString → List (CppString × EmissionData)
  | [] => []
  | line :: rest =>
    match classify line with
    | RowClass.accepted c r => (c, r) :: acceptedRows rest
    | _ => acceptedRows rest

/-- The records of the accepted rows of one country, in the order of the rows. -/
def recordsOf (country : CppString) (rows : List (CppString × EmissionData)) :
    List EmissionData :=
  (rows.filter (fun p => decide (p.1 = country))).map Prod.snd

/-- The loop of `parseCSV` as a fold of its body over a list of lines. -/
def foldRows : List CppString → CountryTable → Run CountryTable
  | [], data => Run.returned data
  | line :: rest, data =>
    match processRow line data with
    | Run.returned data2 => foldRows rest data2
    | Run.terminated e => Run.terminated e
    | Run.outOfFuel => Run.outOfFuel

/-- The records built from pairs of a year label and a finite value. -/
def records (l : List (CppString × ℚ)) : List EmissionData :=
  l.map (fun p => ⟨p.1, Double.fin p.2⟩)

/-- What the table holds under a key whose accepted records are `rs`: no key at
all when there is none. -/
def storedUnder : List EmissionData → Option (List EmissionData)
  | [] => none
  | r :: rs => some (r :: rs)

/-- The invariant of a parsed table: no empty key, no empty vector, no empty
year label. -/
def WellFormed (t : CountryTable) : Prop :=
  ∀ e ∈ t, e.1 ≠ [] ∧ e.2 ≠ [] ∧ ∀ r ∈ e.2, r.year ≠ []

/-- What the first loop of `analyzeCountry` holds as maximum after the records
`pre`: the initial value -1 with an empty year when no value was greater than
-1, and otherwise the largest value `M`, reached first at position `i`, with
the year label of that record. -/
def MaxSeen (pre : List (CppString × ℚ)) (s : Scan) : Prop :=
  (s.max_emission = Double.fin (-1) ∧ s.max_year = [] ∧ ∀ p ∈ pre, p.2 ≤ -1) ∨
    ∃ (i : Nat) (y : CppString) (M : ℚ),
      pre[i]? = some (y, M) ∧ s.max_emission = Double.fin M ∧ s.max_year = y ∧ -1 < M ∧
        (∀ p ∈ pre, p.2 ≤ M) ∧
        ∀ (j : Nat) (p : CppString × ℚ), j < i → pre[j]? = some p → p.2 < M

/-- What the first loop of `analyzeCountry` holds as minimum after the records
`pre`: the initial value 1e9 with an empty year when no value was smaller than
1e9, and otherwise the smallest value `M`, reached first at position `i`, with
the year label of that record. -/
def MinSeen (pre : List (CppString × ℚ)) (s : Scan) : Prop :=
  (s.min_emission = Double.fin 1000000000 ∧ s.min_year = [] ∧
      ∀ p ∈ pre, 1000000000 ≤ p.2) ∨
    ∃ (i : Nat) (y : CppString) (M : ℚ),
      pre[i]? = some (y, M) ∧ s.min_emission = Double.fin M ∧ s.min_year = y ∧
        M < 1000000000 ∧ (∀ p ∈ pre, M ≤ p.2) ∧
        ∀ (j : Nat) (p : CppString × ℚ), j < i → pre[j]? = some p → M < p.2

/-! ## Streams and splitting -/

theorem extract_splitOn (d : Char) (buf : List Char) :
    splitOn d buf =
      match (extract d buf).2 with
      | some rest => (extract d buf).1 :: splitOn d rest
      | none => [(extract d buf).1] := by
  induction buf with
  | nil => simp [splitOn, extract]
  | cons c cs ih =>
    by_cases h : c = d
    · simp [splitOn, extract, h]
    · simp only [splitOn, extract, h, if_false]
      rw [ih]
      cases (extract d cs).2 <;> simp [consHead]

theorem extract_cons_ne (d c : Char) (cs : List Char) (h : c ≠ d) :
    extract d (c :: cs) = (c :: (extract d cs).1, (extract d cs).2) := by
  simp [extract, h]

theorem extract_cons_eq (d : Char) (cs : List Char) :
    extract d (d :: cs) = ([], some cs) := by
  simp [extract]

theorem extract_splitLines (c : Char) (cs : List Char) :
    splitLines (c :: cs) =
      match (extract '\n' (c :: cs)).2 with
      | some rest => (extract '\n' (c :: cs)).1 :: splitLines rest
      | none => [(extract '\n' (c :: cs)).1] := by
  induction cs generalizing c with
  | nil =>
    by_cases h : c = '\n'
    · simp [splitLines, extract, h]
    · simp [splitLines, extract, h, consHead]
  | cons c2 cs ih =>
    by_cases h : c = '\n'
    · subst h
      rw [extract_cons_eq]
      simp [splitLines]
    · have ih2 := ih c2
      rw [splitLines, if_neg h, ih2, extract_cons_ne _ c _ h]
      cases (extract '\n' (c2 :: cs)).2 <;> simp [consHead]

theorem extract_length (d : Char) (buf rest : List Char)
    (h : (extract d buf).2 = some rest) : rest.length < buf.length := by
  induction buf with
  | nil => simp [extract] at h
  | cons c cs ih =>
    by_cases hc : c = d
    · simp [extract, hc] at h
      simp [h]
    · simp only [extract, hc, if_false] at h
      have := ih h
      simp
      omega

theorem extract_none_ne_nil (d c : Char) (cs : List Char)
    (h : (extract d (c :: cs)).2 = none) : (extract d (c :: cs)).1 ≠ [] := by
  by_cases hc : c = d
  · simp [extract, hc] at h
  · simp [extract, hc]

theorem getline_good (buf : List Char) (str : CppString) (d : Char) :
    getline ⟨buf, false, false⟩ str d =
      match (extract d buf).2 with
      | some rest => (⟨rest, false, false⟩, (extract d buf).1)
      | none => (⟨[], true, (extract d buf).1.isEmpty⟩, (extract d buf).1) := by
  simp only [getline, IStream.good]
  rcases h : extract d buf with ⟨f, _ | rest⟩ <;> simp

theorem getline_eof (buf : List Char) (fl : Bool) (str : CppString) (d : Char) :
    getline ⟨buf, true, fl⟩ str d = (⟨buf, true, true⟩, str) := by
  simp [getline, IStream.good]

/-- The six `getline` calls of the loop body read the fields of the naive split
of the line on commas. -/
theorem readFields_eq (line : CppString) :
    readFields line = selectFields (splitOn ',' line) := by
  simp only [readFields, IStream.open]
  rw [extract_splitOn ',' line, getline_good]
  rcases h1 : (extract ',' line).2 with _ | b1
  · simp [getline_eof, selectFields]
  simp only []
  rw [extract_splitOn ',' b1, getline_good]
  rcases h2 : (extract ',' b1).2 with _ | b2
  · simp [getline_eof, selectFields]
  simp only []
  rw [extract_splitOn ',' b2, getline_good]
  rcases h3 : (extract ',' b2).2 with _ | b3
  · simp [getline_eof, selectFields]
  simp only []
  rw [extract_splitOn ',' b3, getline_good]
  rcases h4 : (extract ',' b3).2 with _ | b4
  · simp [getline_eof, selectFields]
  simp only []
  rw [extract_splitOn ',' b4, getline_good]
  rcases h5 : (extract ',' b4).2 with _ | b5
  · simp [getline_eof, selectFields]
  simp only []
  rw [extract_splitOn ',' b5, getline_good]
  rcases h6 : (extract ',' b5).2 with _ | b6
  · simp [selectFields]
  · simp [selectFields]

/-! ## The loop of parseCSV -/

theorem processRow_ne_outOfFuel (line : CppString) (data : CountryTable) :
    processRow line data ≠ Run.outOfFuel := by
  simp only [processRow]
  split
  · split <;> simp
  · simp

theorem parseLoop_eof (fuel : Nat) (buf : List Char) (fl : Bool) (line : CppString)
    (data : CountryTable) :
    parseLoop (fuel + 1) ⟨buf, true, fl⟩ line data = Run.returned data := by
  simp [parseLoop, getline_eof]

theorem parseLoop_eq_foldRows (fuel : Nat) :
    ∀ (buf : List Char) (line : CppString) (data : CountryTable), buf.length < fuel →
      parseLoop fuel ⟨buf, false, false⟩ line data = foldRows (splitLines buf) data := by
  induction fuel with
  | zero => intro buf line data h; omega
  | succ n ih =>
    intro buf line data hlen
    cases buf with
    | nil => simp [parseLoop, getline, IStream.good, extract, splitLines, foldRows]
    | cons c cs =>
      rw [parseLoop, getline_good, extract_splitLines]
      rcases h : (extract '\n' (c :: cs)).2 with _ | rest
      · have hne := extract_none_ne_nil '\n' c cs h
        have hn : 1 ≤ n := by simp at hlen; omega
        obtain ⟨m, rfl⟩ : ∃ m, n = m + 1 := ⟨n - 1, by omega⟩
        simp only [foldRows]
        have hf : (extract '\n' (c :: cs)).1.isEmpty = false := by
          cases hx : (extract '\n' (c :: cs)).1 with
          | nil => exact absurd hx hne
          | cons a b => rfl
        simp only [hf]
        cases hp : processRow (extract '\n' (c :: cs)).1 data with
        | returned d => simp [parseLoop_eof]
        | terminated e => simp
        | outOfFuel => simp
      · have hl := extract_length '\n' (c :: cs) rest h
        simp only [foldRows]
        cases hp : processRow (extract '\n' (c :: cs)).1 data with
        | returned d =>
          simp only [Bool.false_eq_true, if_false]
          exact ih rest _ d (by omega)
        | terminated e => simp
        | outOfFuel => simp

/-- The function `parseCSV` runs the loop body over the data rows of the file,
in their order, and never reaches the bound on its iterations. -/
theorem parseCSV_eq_foldRows (content : List Char) (data : CountryTable) :
    parseCSV (some content) data = foldRows (dataLines content) data := by
  simp only [parseCSV, IStream.open, dataLines]
  cases content with
  | nil => simp [getline, IStream.good, extract, parseLoop, splitLines, foldRows]
  | cons c cs =>
    rw [getline_good, extract_splitLines]
    rcases h : (extract '\n' (c :: cs)).2 with _ | rest
    · simp [parseLoop_eof, foldRows]
    · have hl := extract_length '\n' (c :: cs) rest h
      simp only [List.tail_cons]
      exact parseLoop_eq_foldRows _ rest [] data (by omega)

theorem foldRows_ne_outOfFuel (lines : List CppString) :
    ∀ data : CountryTable, foldRows lines data ≠ Run.outOfFuel := by
  induction lines with
  | nil => intro data; simp [foldRows]
  | cons l ls ih =>
    intro data
    simp only [foldRows]
    cases hp : processRow l data with
    | returned d => exact ih d
    | terminated e => simp
    | outOfFuel => exact absurd hp (processRow_ne_outOfFuel l data)

/-- The bound on the iterations of the loop is never reached: `parseCSV` returns
a table or ends on an exception. -/
theorem parseCSV_ne_outOfFuel (file : Option (List Char)) (data : CountryTable) :
    parseCSV file data ≠ Run.outOfFuel := by
  cases file with
  | none => simp [parseCSV]
  | some content =>
    rw [parseCSV_eq_foldRows]
    exact foldRows_ne_outOfFuel _ data

/-! ## The table -/

theorem find_pushBack_same (c : CppString) (r : EmissionData) (data : CountryTable) :
    find c (pushBack c r data) = some ((find c data).getD [] ++ [r]) := by
  induction data with
  | nil => simp [pushBack, find]
  | cons e rest ih =>
    obtain ⟨k, v⟩ := e
    by_cases h : k = c
    · simp [pushBack, find, h]
    · simp [pushBack, find, h, ih]

theorem find_pushBack_other (c k : CppString) (r : EmissionData) (data : CountryTable)
    (hk : k ≠ c) : find k (pushBack c r data) = find k data := by
  induction data with
  | nil =>
    simp only [pushBack, find]
    rw [if_neg (fun h => hk h.symm)]
  | cons e rest ih =>
    obtain ⟨k2, v⟩ := e
    by_cases h : k2 = c
    · subst h
      simp only [pushBack, find, if_true]
      rw [if_neg (fun h => hk h.symm), if_neg (fun h => hk h.symm)]
    · simp only [pushBack, find, h, if_false]
      by_cases h2 : k2 = k
      · simp [h2]
      · simp [h2, ih]

/-- The loop body in terms of the rule of acceptance. -/
theorem processRow_eq_classify (line : CppString) (data : CountryTable) :
    processRow line data =
      match classify line with
      | RowClass.accepted c r => Run.returned (pushBack c r data)
      | RowClass.dropped => Run.returned data
      | RowClass.aborts => Run.terminated Exception.out_of_range := by
  unfold processRow classify
  rw [readFields_eq]
  generalize selectFields (splitOn ',' line) = f
  obtain ⟨c, code, y, co2⟩ := f
  cases c <;> cases y <;> cases co2 <;> simp
  rename_i a b c d e f
  rcases hs : stod (e :: f) with (_ | _) | v <;> simp

theorem stod_nil : stod [] = Except.error Exception.invalid_argument := by
  rfl

theorem foldRows_find (lines : List CppString) :
    ∀ (data t : CountryTable) (C : CppString), foldRows lines data = Run.returned t →
      find C t =
        match recordsOf C (acceptedRows lines) with
        | [] => find C data
        | r :: rs => some ((find C data).getD [] ++ r :: rs) := by
  induction lines with
  | nil =>
    intro data t C h
    simp only [foldRows, Run.returned.injEq] at h
    simp [acceptedRows, recordsOf, h]
  | cons l ls ih =>
    intro data t C h
    simp only [foldRows, processRow_eq_classify] at h
    simp only [acceptedRows]
    cases hc : classify l with
    | accepted c r =>
      simp only [hc] at h
      rw [ih _ t C h]
      by_cases hk : c = C
      · subst hk
        simp only [recordsOf, List.filter_cons, decide_True, if_true, List.map_cons,
          find_pushBack_same]
        cases (List.map Prod.snd (List.filter (fun p => decide (p.1 = c)) (acceptedRows ls))) <;>
          simp
      · have hk2 : C ≠ c := fun h => hk h.symm
        simp only [recordsOf, List.filter_cons, hk, decide_False, find_pushBack_other c C r data hk2]
        simp
    | dropped =>
      simp only [hc] at h
      exact ih _ t C h
    | aborts => simp [hc] at h

theorem foldRows_returns (lines : List CppString) :
    ∀ data : CountryTable, (∀ line ∈ lines, classify line ≠ RowClass.aborts) →
      ∃ t, foldRows lines data = Run.returned t := by
  induction lines with
  | nil => intro data _; exact ⟨data, rfl⟩
  | cons l ls ih =>
    intro data h
    have hl := h l (List.mem_cons_self _ _)
    have hls : ∀ line ∈ ls, classify line ≠ RowClass.aborts :=
      fun line hm => h line (List.mem_cons_of_mem _ hm)
    simp only [foldRows, processRow_eq_classify]
    cases hc : classify l with
    | accepted c r => exact ih _ hls
    | dropped => exact ih _ hls
    | aborts => exact absurd hc hl

theorem wellFormed_pushBack (c : CppString) (r : EmissionData) (data : CountryTable)
    (hc : c ≠ []) (hy : r.year ≠ []) (hd : WellFormed data) : WellFormed (pushBack c r data) := by
  induction data with
  | nil =>
    intro e he
    simp only [pushBack, List.mem_singleton] at he
    subst he
    simp [hc, hy]
  | cons e rest ih =>
    obtain ⟨k, v⟩ := e
    have hr : WellFormed rest := fun e he => hd e (List.mem_cons_of_mem _ he)
    have hkv := hd (k, v) (List.mem_cons_self _ _)
    by_cases h : k = c
    · intro e he
      simp only [pushBack, h, if_true, List.mem_cons] at he
      rcases he with he | he
      · subst he
        refine ⟨hc, by simp, ?_⟩
        intro r2 hr2
        simp only [List.mem_append, List.mem_singleton] at hr2
        rcases hr2 with hr2 | hr2
        · exact hkv.2.2 r2 hr2
        · rw [hr2]; exact hy
      · exact hr e he
    · intro e he
      simp only [pushBack, h, if_false, List.mem_cons] at he
      rcases he with he | he
      · subst he; exact hkv
      · exact ih hr e he

theorem classify_accepted_ne_nil (line c : CppString) (r : EmissionData)
    (h : classify line = RowClass.accepted c r) : c ≠ [] ∧ r.year ≠ [] := by
  simp only [classify] at h
  split at h
  · simp at h
  · rename_i hn
    simp only [not_or] at hn
    split at h
    · simp only [RowClass.accepted.injEq] at h
      obtain ⟨h1, h2⟩ := h
      subst h1
      subst h2
      exact ⟨hn.1, hn.2.1⟩
    · simp at h
    · simp at h

theorem wellFormed_foldRows (lines : List CppString) :
    ∀ (data t : CountryTable), WellFormed data → foldRows lines data = Run.returned t →
      WellFormed t := by
  induction lines with
  | nil =>
    intro data t hd h
    simp only [foldRows, Run.returned.injEq] at h
    exact h ▸ hd
  | cons l ls ih =>
    intro data t hd h
    simp only [foldRows, processRow_eq_classify] at h
    cases hc : classify l with
    | accepted c r =>
      simp only [hc] at h
      have hne := classify_accepted_ne_nil l c r hc
      exact ih _ t (wellFormed_pushBack c r data hne.1 hne.2 hd) h
    | dropped =>
      simp only [hc] at h
      exact ih _ t hd h
    | aborts => simp [hc] at h

theorem find_some_mem (C : CppString) (rs : List EmissionData) (t : CountryTable)
    (h : find C t = some rs) : (C, rs) ∈ t := by
  induction t with
  | nil => simp [find] at h
  | cons e rest ih =>
    obtain ⟨k, v⟩ := e
    by_cases hk : k = C
    · simp only [find, hk, if_true, Option.some.injEq] at h
      simp [hk, h]
    · simp only [find, hk, if_false] at h
      exact List.mem_cons_of_mem _ (ih h)

theorem find_none_of_not_key (C : CppString) (t : CountryTable)
    (h : ∀ e ∈ t, e.1 ≠ C) : find C t = none := by
  induction t with
  | nil => rfl
  | cons e rest ih =>
    obtain ⟨k, v⟩ := e
    have hk : k ≠ C := h (k, v) (List.mem_cons_self _ _)
    simp only [find, hk, if_false]
    exact ih (fun e he => h e (List.mem_cons_of_mem _ he))

/-! ## The sums of analyzeCountry -/

theorem scan_step_total (s : Scan) (r : EmissionData) :
    (Scan.step s r).total = Double.add s.total r.emissions := by
  simp only [Scan.step]
  split <;> split <;> rfl

theorem foldl_step_total (l : List (CppString × ℚ)) :
    ∀ (s : Scan) (a : ℚ), s.total = Double.fin a →
      (List.foldl Scan.step s (records l)).total = Double.fin (a + (l.map Prod.snd).sum) := by
  induction l with
  | nil => intro s a h; simp [records, h]
  | cons p ps ih =>
    intro s a h
    have hs : (Scan.step s ⟨p.1, Double.fin p.2⟩).total = Double.fin (a + p.2) := by
      rw [scan_step_total, h]; rfl
    have := ih (Scan.step s ⟨p.1, Double.fin p.2⟩) (a + p.2) hs
    simp only [records, List.map_cons, List.foldl_cons, List.sum_cons] at this ⊢
    rw [this, add_assoc]

theorem foldl_squares (m : ℚ) (l : List (CppString × ℚ)) :
    ∀ a : ℚ,
      List.foldl
          (fun v (record : EmissionData) =>
            Double.add v (Double.pow2 (Double.sub record.emissions (Double.fin m))))
          (Double.fin a) (records l) =
        Double.fin (a + (l.map (fun p => (p.2 - m) ^ 2)).sum) := by
  induction l with
  | nil => intro a; simp [records]
  | cons p ps ih =>
    intro a
    have := ih (a + (p.2 - m) ^ 2)
    simp only [records, List.map_cons, List.foldl_cons, List.sum_cons] at this ⊢
    have hstep : Double.add (Double.fin a)
        (Double.pow2 (Double.sub (Double.fin p.2) (Double.fin m))) =
          Double.fin (a + (p.2 - m) ^ 2) := by
      simp [Double.sub, Double.neg, Double.add, Double.pow2, sub_eq_add_neg]
    rw [hstep, this, add_assoc]

theorem records_length (l : List (CppString × ℚ)) : (records l).length = l.length := by
  simp [records]

theorem divSize_fin (a : ℚ) (n : Nat) (hn : n ≠ 0) :
    Double.divSize (Double.fin a) n = Double.fin (a / (n : ℚ)) := by
  simp [Double.divSize, hn]

theorem average_records (l : List (CppString × ℚ)) (hl : l ≠ []) :
    average (records l) = Double.fin ((l.map Prod.snd).sum / (l.length : ℚ)) := by
  have hn : l.length ≠ 0 := by simpa using hl
  simp only [average, scan, records_length]
  rw [foldl_step_total l Scan.init 0 rfl, divSize_fin _ _ hn, zero_add]

theorem sqrtArgument_records (l : List (CppString × ℚ)) (hl : l ≠ []) :
    sqrtArgument (records l) =
      Double.fin ((l.map (fun p => (p.2 - (l.map Prod.snd).sum / (l.length : ℚ)) ^ 2)).sum
        / (l.length : ℚ)) := by
  have hn : l.length ≠ 0 := by simpa using hl
  simp only [sqrtArgument, records_length]
  rw [average_records l hl, sumSquares, foldl_squares, divSize_fin _ _ hn, zero_add]

/-- The model of `std::sqrt` undoes the one of `std::pow(a, 2)`: on a finite
value it denotes the absolute value. -/
theorem sqrt_pow2 (q : ℚ) :
    (Double.sqrt (Double.pow2 (Double.fin q))).toReal = some |(q : ℝ)| := by
  have h : (0 : ℚ) ≤ q ^ 2 := by positivity
  simp only [Double.pow2, Double.sqrt, h, if_true, Double.Root.toReal]
  rw [Rat.cast_pow, Real.sqrt_sq_eq_abs]

theorem sum_squares_nonneg (m : ℚ) (l : List (CppString × ℚ)) :
    0 ≤ (l.map (fun p => (p.2 - m) ^ 2)).sum := by
  apply List.sum_nonneg
  intro x hx
  simp only [List.mem_map] at hx
  obtain ⟨p, _, rfl⟩ := hx
  positivity

/-! ## The scan for the maximum and the minimum -/

theorem scan_step_max (s : Scan) (r : EmissionData) :
    (Scan.step s r).max_emission =
        (if Double.lt s.max_emission r.emissions then r.emissions else s.max_emission) ∧
      (Scan.step s r).max_year =
        (if Double.lt s.max_emission r.emissions then r.year else s.max_year) := by
  simp only [Scan.step, Double.gt]
  split <;> split <;> simp

theorem scan_step_min (s : Scan) (r : EmissionData) :
    (Scan.step s r).min_emission =
        (if Double.lt r.emissions s.min_emission then r.emissions else s.min_emission) ∧
      (Scan.step s r).min_year =
        (if Double.lt r.emissions s.min_emission then r.year else s.min_year) := by
  simp only [Scan.step, Double.gt]
  split <;> split <;> simp_all

theorem maxSeen_step (pre : List (CppString × ℚ)) (s : Scan) (x : CppString × ℚ)
    (h : MaxSeen pre s) : MaxSeen (pre ++ [x]) (Scan.step s ⟨x.1, Double.fin x.2⟩) := by
  obtain ⟨hm, hy⟩ := scan_step_max s ⟨x.1, Double.fin x.2⟩
  rcases h with ⟨he, hyr, hall⟩ | ⟨i, y, M, hi, he, hyr, hM, hall, hfirst⟩
  · by_cases hx : -1 < x.2
    · right
      refine ⟨pre.length, x.1, x.2, List.getElem?_concat_length pre x, ?_, ?_, hx, ?_, ?_⟩
      · rw [hm, he]; simp [Double.lt, hx]
      · rw [hy, he]; simp [Double.lt, hx]
      · intro p hp
        rcases List.mem_append.mp hp with hp | hp
        · exact le_of_lt (lt_of_le_of_lt (hall p hp) hx)
        · simp only [List.mem_singleton] at hp
          rw [hp]
      · intro j p hj hp
        rw [List.getElem?_append_left hj] at hp
        exact lt_of_le_of_lt (hall p (List.getElem?_mem hp)) hx
    · left
      refine ⟨?_, ?_, ?_⟩
      · rw [hm, he]; simp [Double.lt, hx]
      · rw [hy, he]; simp [Double.lt, hx, hyr]
      · intro p hp
        rcases List.mem_append.mp hp with hp | hp
        · exact hall p hp
        · simp only [List.mem_singleton] at hp
          rw [hp]; exact not_lt.mp hx
  · have hilt : i < pre.length := (List.getElem?_eq_some_iff.mp hi).1
    by_cases hx : M < x.2
    · right
      refine ⟨pre.length, x.1, x.2, List.getElem?_concat_length pre x, ?_, ?_,
        lt_trans hM hx, ?_, ?_⟩
      · rw [hm, he]; simp [Double.lt, hx]
      · rw [hy, he]; simp [Double.lt, hx]
      · intro p hp
        rcases List.mem_append.mp hp with hp | hp
        · exact le_of_lt (lt_of_le_of_lt (hall p hp) hx)
        · simp only [List.mem_singleton] at hp
          rw [hp]
      · intro j p hj hp
        rw [List.getElem?_append_left hj] at hp
        exact lt_of_le_of_lt (hall p (List.getElem?_mem hp)) hx
    · right
      refine ⟨i, y, M, ?_, ?_, ?_, hM, ?_, ?_⟩
      · rw [List.getElem?_append_left hilt]; exact hi
      · rw [hm, he]; simp [Double.lt, hx]
      · rw [hy, he]; simp [Double.lt, hx, hyr]
      · intro p hp
        rcases List.mem_append.mp hp with hp | hp
        · exact hall p hp
        · simp only [List.mem_singleton] at hp
          rw [hp]; exact not_lt.mp hx
      · intro j p hj hp
        rw [List.getElem?_append_left (lt_trans hj hilt)] at hp
        exact hfirst j p hj hp

theorem minSeen_step (pre : List (CppString × ℚ)) (s : Scan) (x : CppString × ℚ)
    (h : MinSeen pre s) : MinSeen (pre ++ [x]) (Scan.step s ⟨x.1, Double.fin x.2⟩) := by
  obtain ⟨hm, hy⟩ := scan_step_min s ⟨x.1, Double.fin x.2⟩
  rcases h with ⟨he, hyr, hall⟩ | ⟨i, y, M, hi, he, hyr, hM, hall, hfirst⟩
  · by_cases hx : x.2 < 1000000000
    · right
      refine ⟨pre.length, x.1, x.2, List.getElem?_concat_length pre x, ?_, ?_, hx, ?_, ?_⟩
      · rw [hm, he]; simp [Double.lt, hx]
      · rw [hy, he]; simp [Double.lt, hx]
      · intro p hp
        rcases List.mem_append.mp hp with hp | hp
        · exact le_of_lt (lt_of_lt_of_le hx (hall p hp))
        · simp only [List.mem_singleton] at hp
          rw [hp]
      · intro j p hj hp
        rw [List.getElem?_append_left hj] at hp
        exact lt_of_lt_of_le hx (hall p (List.getElem?_mem hp))
    · left
      refine ⟨?_, ?_, ?_⟩
      · rw [hm, he]; simp [Double.lt, hx]
      · rw [hy, he]; simp [Double.lt, hx, hyr]
      · intro p hp
        rcases List.mem_append.mp hp with hp | hp
        · exact hall p hp
        · simp only [List.mem_singleton] at hp
          rw [hp]; exact not_lt.mp hx
  · have hilt : i < pre.length := (List.getElem?_eq_some_iff.mp hi).1
    by_cases hx : x.2 < M
    · right
      refine ⟨pre.length, x.1, x.2, List.getElem?_concat_length pre x, ?_, ?_,
        lt_trans hx hM, ?_, ?_⟩
      · rw [hm, he]; simp [Double.lt, hx]
      · rw [hy, he]; simp [Double.lt, hx]
      · intro p hp
        rcases List.mem_append.mp hp with hp | hp
        · exact le_of_lt (lt_of_lt_of_le hx (hall p hp))
        · simp only [List.mem_singleton] at hp
          rw [hp]
      · intro j p hj hp
        rw [List.getElem?_append_left hj] at hp
        exact lt_of_lt_of_le hx (hall p (List.getElem?_mem hp))
    · right
      refine ⟨i, y, M, ?_, ?_, ?_, hM, ?_, ?_⟩
      · rw [List.getElem?_append_left hilt]; exact hi
      · rw [hm, he]; simp [Double.lt, hx]
      · rw [hy, he]; simp [Double.lt, hx, hyr]
      · intro p hp
        rcases List.mem_append.mp hp with hp | hp
        · exact hall p hp
        · simp only [List.mem_singleton] at hp
          rw [hp]; exact not_lt.mp hx
      · intro j p hj hp
        rw [List.getElem?_append_left (lt_trans hj hilt)] at hp
        exact hfirst j p hj hp

theorem seen_foldl (suf : List (CppString × ℚ)) :
    ∀ (pre : List (CppString × ℚ)) (s : Scan), MaxSeen pre s → MinSeen pre s →
      MaxSeen (pre ++ suf) (List.foldl Scan.step s (records suf)) ∧
        MinSeen (pre ++ suf) (List.foldl Scan.step s (records suf)) := by
  induction suf with
  | nil => intro pre s h1 h2; simpa [records] using And.intro h1 h2
  | cons x xs ih =>
    intro pre s h1 h2
    have := ih (pre ++ [x]) _ (maxSeen_step pre s x h1) (minSeen_step pre s x h2)
    simpa [records] using this

/-- The scan of `analyzeCountry` and its initial values: the maximum reported is
the largest value and its year the year of the first record with that value as
soon as one value is greater than -1; otherwise -1 and an empty year are
reported. The minimum likewise, with values smaller than 1e9. -/
theorem scan_seen (l : List (CppString × ℚ)) :
    MaxSeen l (scan (records l)) ∧ MinSeen l (scan (records l)) := by
  have h := seen_foldl l [] Scan.init (Or.inl ⟨rfl, rfl, fun p hp => by cases hp⟩)
    (Or.inl ⟨rfl, rfl, fun p hp => by cases hp⟩)
  simpa [scan] using h

/-! ## The set of countries -/

theorem char_eq_of_toNat (a b : Char) (h1 : ¬ a.toNat < b.toNat) (h2 : ¬ b.toNat < a.toNat) :
    a = b := by
  apply Char.ext
  apply UInt32.ext
  have : a.toNat = b.toNat := by omega
  exact this

theorem strLess_irrefl (a : CppString) : strLess a a = false := by
  induction a with
  | nil => rfl
  | cons c cs ih => simp [strLess, ih]

theorem strLess_trans :
    ∀ a b c : CppString, strLess a b = true → strLess b c = true → strLess a c = true := by
  intro a
  induction a with
  | nil =>
    intro b c h1 h2
    cases b with
    | nil => simp [strLess] at h1
    | cons y ys =>
      cases c with
      | nil => simp [strLess] at h2
      | cons z zs => rfl
  | cons x xs ih =>
    intro b c h1 h2
    cases b with
    | nil => simp [strLess] at h1
    | cons y ys =>
      cases c with
      | nil => simp [strLess] at h2
      | cons z zs =>
        simp only [strLess] at h1 h2 ⊢
        by_cases hxy : x.toNat < y.toNat
        · by_cases hyz : y.toNat < z.toNat
          · rw [if_pos (by omega)]
          · rw [if_neg hyz] at h2
            by_cases hzy : z.toNat < y.toNat
            · simp [hzy] at h2
            · rw [if_pos (by omega)]
        · rw [if_neg hxy] at h1
          by_cases hyx : y.toNat < x.toNat
          · simp [hyx] at h1
          · rw [if_neg hyx] at h1
            by_cases hyz : y.toNat < z.toNat
            · rw [if_pos (by omega)]
            · rw [if_neg hyz] at h2
              by_cases hzy : z.toNat < y.toNat
              · simp [hzy] at h2
              · rw [if_neg hzy] at h2
                rw [if_neg (by omega), if_neg (by omega)]
                exact ih ys zs h1 h2

theorem strLess_total :
    ∀ a b : CppString, strLess a b = false → strLess b a = false → a = b := by
  intro a
  induction a with
  | nil =>
    intro b h1 h2
    cases b with
    | nil => rfl
    | cons y ys => simp [strLess] at h1
  | cons x xs ih =>
    intro b h1 h2
    cases b with
    | nil => simp [strLess] at h2
    | cons y ys =>
      simp only [strLess] at h1 h2
      by_cases hxy : x.toNat < y.toNat
      · simp [hxy] at h1
      · by_cases hyx : y.toNat < x.toNat
        · simp [hyx] at h2
        · rw [if_neg hxy, if_neg hyx] at h1
          rw [if_neg hyx, if_neg hxy] at h2
          rw [char_eq_of_toNat x y hxy hyx, ih ys h1 h2]

theorem mem_setInsert (k j : CppString) (s : List CppString) :
    j ∈ setInsert k s ↔ j = k ∨ j ∈ s := by
  induction s with
  | nil => simp [setInsert]
  | cons x xs ih =>
    rw [setInsert]
    by_cases h1 : strLess k x = true
    · rw [if_pos h1]
      simp
    · rw [if_neg h1]
      by_cases h2 : strLess x k = true
      · rw [if_pos h2, List.mem_cons, ih, List.mem_cons]
        tauto
      · rw [if_neg h2]
        have hx : k = x := strLess_total k x (by simpa using h1) (by simpa using h2)
        rw [hx, List.mem_cons]
        tauto

theorem pairwise_setInsert (k : CppString) (s : List CppString)
    (hs : s.Pairwise (fun a b => strLess a b = true)) :
    (setInsert k s).Pairwise (fun a b => strLess a b = true) := by
  induction s with
  | nil => simp [setInsert]
  | cons x xs ih =>
    have hx := (List.pairwise_cons.mp hs).1
    have hxs := (List.pairwise_cons.mp hs).2
    rw [setInsert]
    by_cases h1 : strLess k x = true
    · rw [if_pos h1]
      refine List.pairwise_cons.mpr ⟨?_, hs⟩
      intro j hj
      rcases List.mem_cons.mp hj with hj | hj
      · rw [hj]; exact h1
      · exact strLess_trans k x j h1 (hx j hj)
    · rw [if_neg h1]
      by_cases h2 : strLess x k = true
      · rw [if_pos h2]
        refine List.pairwise_cons.mpr ⟨?_, ih hxs⟩
        intro j hj
        rcases (mem_setInsert k j xs).mp hj with hj | hj
        · rw [hj]; exact h2
        · exact hx j hj
      · rw [if_neg h2]
        exact hs

theorem countrySet_foldl (data : CountryTable) :
    ∀ s : List CppString, s.Pairwise (fun a b => strLess a b = true) →
      (data.foldl (fun countries entry => setInsert entry.1 countries) s).Pairwise
          (fun a b => strLess a b = true) ∧
        ∀ j : CppString,
          j ∈ data.foldl (fun countries entry => setInsert entry.1 countries) s ↔
            j ∈ s ∨ ∃ e ∈ data, e.1 = j := by
  induction data with
  | nil => intro s hs; simp [hs]
  | cons e rest ih =>
    intro s hs
    have h := ih (setInsert e.1 s) (pairwise_setInsert e.1 s hs)
    refine ⟨h.1, ?_⟩
    intro j
    simp only [List.foldl_cons]
    rw [h.2 j, mem_setInsert]
    constructor
    · rintro ((rfl | hj) | ⟨e2, he2, rfl⟩)
      · exact Or.inr ⟨e, List.mem_cons_self _ _, rfl⟩
      · exact Or.inl hj
      · exact Or.inr ⟨e2, List.mem_cons_of_mem _ he2, rfl⟩
    · rintro (hj | ⟨e2, he2, rfl⟩)
      · exact Or.inl (Or.inr hj)
      · rcases List.mem_cons.mp he2 with he2 | he2
        · rw [he2]; exact Or.inl (Or.inl rfl)
        · exact Or.inr ⟨e2, he2, rfl⟩

/-- The list of countries that `main` prints is in strictly increasing order and
holds exactly the keys of the table. -/
theorem countrySet_sorted_keys (data : CountryTable) :
    (countrySet data).Pairwise (fun a b => strLess a b = true) ∧
      ∀ j : CppString, j ∈ countrySet data ↔ ∃ e ∈ data, e.1 = j := by
  have h := countrySet_foldl data [] List.Pairwise.nil
  refine ⟨h.1, ?_⟩
  intro j
  have := h.2 j
  simpa [countrySet] using this

/-! ## The claims on parseCSV -/

/-- C1, as stated, fails: the row `Kenya,KEN,2000,a,b,1.5,2.5` splits into seven
fields, its first and third fields are not empty and its seventh field is the
numeral 2.5, yet the record `parseCSV` stores under `Kenya` carries 1.5, the
value of the sixth field, and not 2.5. -/
theorem C1_seventh_field_is_not_read :
    splitOn ',' "Kenya,KEN,2000,a,b,1.5,2.5".toList =
        ["Kenya".toList, "KEN".toList, "2000".toList, "a".toList, "b".toList,
          "1.5".toList, "2.5".toList] ∧
      stod "2.5".toList = Except.ok (Double.fin (5 / 2)) ∧
      processRow "Kenya,KEN,2000,a,b,1.5,2.5".toList [] =
        Run.returned [("Kenya".toList, [⟨"2000".toList, Double.fin (3 / 2)⟩])] ∧
      processRow "Kenya,KEN,2000,a,b,1.5,2.5".toList [] ≠
        Run.returned (pushBack "Kenya".toList ⟨"2000".toList, Double.fin (5 / 2)⟩ []) := by
  decide!

/-- C1, amended: for every data row that splits on commas into at least six
fields, with a non-empty first field `c`, a non-empty third field `y` and a
sixth field on which `std::stod` returns `v`, the loop body of `parseCSV`
appends exactly the record `{y, v}` to the sequence stored under `c` (creating
the key when it is absent) and leaves every other key as it was. -/
theorem C1_sixth_field_is_stored (line : CppString) (data : CountryTable)
    (c code y f4 f5 f6 : CppString) (rest : List CppString) (v : Double)
    (hs : splitOn ',' line = c :: code :: y :: f4 :: f5 :: f6 :: rest)
    (hc : c ≠ []) (hy : y ≠ []) (hv : stod f6 = Except.ok v) :
    processRow line data = Run.returned (pushBack c ⟨y, v⟩ data) ∧
      find c (pushBack c ⟨y, v⟩ data) = some ((find c data).getD [] ++ [⟨y, v⟩]) ∧
      ∀ k : CppString, k ≠ c → find k (pushBack c ⟨y, v⟩ data) = find k data := by
  have h6 : f6 ≠ [] := by
    intro h
    rw [h, stod_nil] at hv
    cases hv
  refine ⟨?_, find_pushBack_same c _ data, fun k hk => find_pushBack_other c k _ data hk⟩
  rw [processRow_eq_classify]
  simp only [classify, hs, selectFields, hc, hy, h6, or_self, if_false, hv]

/-- C1, amended, on the row `Kenya,KEN,2000,a,b,1.5,2.5` and a table that holds
one record of Kenya already. -/
theorem C1_sixth_field_is_stored_witness :
    processRow "Kenya,KEN,2000,a,b,1.5,2.5".toList
          [("Kenya".toList, [⟨"1999".toList, Double.fin 1⟩])] =
        Run.returned (pushBack "Kenya".toList ⟨"2000".toList, Double.fin (3 / 2)⟩
          [("Kenya".toList, [⟨"1999".toList, Double.fin 1⟩])]) ∧
      find "Kenya".toList (pushBack "Kenya".toList ⟨"2000".toList, Double.fin (3 / 2)⟩
          [("Kenya".toList, [⟨"1999".toList, Double.fin 1⟩])]) =
        some ((find "Kenya".toList
          [("Kenya".toList, [⟨"1999".toList, Double.fin 1⟩])]).getD [] ++
            [⟨"2000".toList, Double.fin (3 / 2)⟩]) ∧
      ∀ k : CppString, k ≠ "Kenya".toList →
        find k (pushBack "Kenya".toList ⟨"2000".toList, Double.fin (3 / 2)⟩
          [("Kenya".toList, [⟨"1999".toList, Double.fin 1⟩])]) =
        find k [("Kenya".toList, [⟨"1999".toList, Double.fin 1⟩])] :=
  C1_sixth_field_is_stored "Kenya,KEN,2000,a,b,1.5,2.5".toList
    [("Kenya".toList, [⟨"1999".toList, Double.fin 1⟩])]
    "Kenya".toList "KEN".toList "2000".toList "a".toList "b".toList "1.5".toList
    ["2.5".toList] (Double.fin (3 / 2)) (by decide!) (by decide!) (by decide!) (by decide!)

/-- C6: when no data row makes `std::stod` report a value out of range,
`parseCSV` on an empty table returns; and whenever it returns, the sequence
stored under any key `C` is exactly the sequence of the records of the accepted
rows whose country field is `C`, in the order of the rows in the file, a country
without an accepted row having no key. -/
theorem C6_records_in_file_order (content : List Char) :
    ((∀ line ∈ dataLines content, classify line ≠ RowClass.aborts) →
        ∃ t, parseCSV (some content) [] = Run.returned t) ∧
      ∀ t : CountryTable, parseCSV (some content) [] = Run.returned t →
        ∀ C : CppString,
          find C t = storedUnder (recordsOf C (acceptedRows (dataLines content))) := by
  constructor
  · intro h
    rw [parseCSV_eq_foldRows]
    exact foldRows_returns _ [] h
  · intro t h C
    rw [parseCSV_eq_foldRows] at h
    rw [foldRows_find _ [] t C h]
    cases recordsOf C (acceptedRows (dataLines content)) <;> simp [storedUnder, find]

/-- C6 on a file in which the rows of Kenya are not in the order of their years,
one of them occurs twice and a row of Peru stands between them. -/
theorem C6_records_in_file_order_witness :
    parseCSV (some ("country,code,year,a,b,co2\nKenya,KEN,2000,a,b,1.5\n" ++
          "Peru,PER,2000,a,b,7\nKenya,KEN,1999,a,b,2\nKenya,KEN,2000,a,b,1.5\n").toList) [] =
        Run.returned
          [("Kenya".toList, [⟨"2000".toList, Double.fin (3 / 2)⟩,
              ⟨"1999".toList, Double.fin 2⟩, ⟨"2000".toList, Double.fin (3 / 2)⟩]),
            ("Peru".toList, [⟨"2000".toList, Double.fin 7⟩])] ∧
      find "Kenya".toList
          [("Kenya".toList, [⟨"2000".toList, Double.fin (3 / 2)⟩,
              ⟨"1999".toList, Double.fin 2⟩, ⟨"2000".toList, Double.fin (3 / 2)⟩]),
            ("Peru".toList, [⟨"2000".toList, Double.fin 7⟩])] =
        storedUnder (recordsOf "Kenya".toList (acceptedRows (dataLines
          ("country,code,year,a,b,co2\nKenya,KEN,2000,a,b,1.5\n" ++
          "Peru,PER,2000,a,b,7\nKenya,KEN,1999,a,b,2\nKenya,KEN,2000,a,b,1.5\n").toList))) :=
  ⟨by decide!,
    (C6_records_in_file_order
      ("country,code,year,a,b,co2\nKenya,KEN,2000,a,b,1.5\n" ++
        "Peru,PER,2000,a,b,7\nKenya,KEN,1999,a,b,2\nKenya,KEN,2000,a,b,1.5\n").toList).2 _
      (by decide!) "Kenya".toList⟩

/-- C9 fails on the code: a data row whose numeric field is the numeral `1e999`,
too large for a double, makes `std::stod` throw `std::out_of_range`, which the
handler for `std::invalid_argument` does not catch, so the parse and the run
end there instead of going on with the next row. -/
theorem C9_out_of_range_row_ends_the_run :
    stod "1e999".toList = Except.error Exception.out_of_range ∧
      parseCSV (some ("country,code,year,a,b,co2\nKenya,KEN,2000,a,b,1e999\n" ++
          "Peru,PER,2000,a,b,7\n").toList) [] = Run.terminated Exception.out_of_range ∧
      main ⟨true, some ("country,code,year,a,b,co2\nKenya,KEN,2000,a,b,1e999\n" ++
          "Peru,PER,2000,a,b,7\n").toList, "Peru\n".toList, true⟩ ⟨[], none⟩ =
        Run.terminated Exception.out_of_range := by
  decide!

/-- C10: every table that `parseCSV` produces from an empty table has only
non-empty keys, each with a non-empty sequence of records whose year labels are
not empty; so the sequence `analyzeCountry` finds under a key has at least one
record, and the count it divides by is at least 1. -/
theorem C10_parsed_table_well_formed (file : Option (List Char)) (t : CountryTable)
    (h : parseCSV file [] = Run.returned t) :
    (∀ e ∈ t, e.1 ≠ [] ∧ e.2 ≠ [] ∧ ∀ r ∈ e.2, r.year ≠ []) ∧
      ∀ (C : CppString) (rs : List EmissionData), find C t = some rs → 1 ≤ rs.length := by
  have hw : WellFormed t := by
    cases file with
    | none =>
      simp only [parseCSV, Run.returned.injEq] at h
      subst h
      intro e he
      cases he
    | some content =>
      rw [parseCSV_eq_foldRows] at h
      exact wellFormed_foldRows _ [] t (fun e he => by cases he) h
  refine ⟨hw, ?_⟩
  intro C rs hf
  have hne := (hw (C, rs) (find_some_mem C rs t hf)).2.1
  cases rs with
  | nil => exact absurd rfl hne
  | cons r rs => simp

/-- C10 on a file with two accepted rows of Kenya and rows that are dropped. -/
theorem C10_parsed_table_well_formed_witness :
    parseCSV (some ("country,code,year,a,b,co2\nKenya,KEN,2000,a,b,1.5\n,KEN,2000,a,b,3\n" ++
          "Kenya,KEN,,a,b,3\nKenya,KEN,2001,a,b,\nKenya,KEN,2002,a,b,2\n").toList) [] =
        Run.returned [("Kenya".toList, [⟨"2000".toList, Double.fin (3 / 2)⟩,
          ⟨"2002".toList, Double.fin 2⟩])] ∧
      ((∀ e ∈ [("Kenya".toList, [(⟨"2000".toList, Double.fin (3 / 2)⟩ : EmissionData),
          ⟨"2002".toList, Double.fin 2⟩])], e.1 ≠ [] ∧ e.2 ≠ [] ∧ ∀ r ∈ e.2, r.year ≠ []) ∧
        ∀ (C : CppString) (rs : List EmissionData),
          find C [("Kenya".toList, [(⟨"2000".toList, Double.fin (3 / 2)⟩ : EmissionData),
            ⟨"2002".toList, Double.fin 2⟩])] = some rs → 1 ≤ rs.length) :=
  ⟨by decide!,
    C10_parsed_table_well_formed
      (some ("country,code,year,a,b,co2\nKenya,KEN,2000,a,b,1.5\n,KEN,2000,a,b,3\n" ++
        "Kenya,KEN,,a,b,3\nKenya,KEN,2001,a,b,\nKenya,KEN,2002,a,b,2\n").toList) _ (by decide!)⟩

/-! ## The claims on analyzeCountry -/

/-- C3 fails on the code: `max_emission` starts at -1 and is replaced only by a
greater value. For the file whose only data row is `Kenya,KEN,2000,a,b,-5`, the
sequence of Kenya is not empty and its largest value is -5, but `analyzeCountry`
reports the maximum -1 with an empty year label. -/
theorem C3_max_seed_is_reported :
    parseCSV (some "country,code,year,a,b,co2\nKenya,KEN,2000,a,b,-5\n".toList) [] =
        Run.returned [("Kenya".toList, [⟨"2000".toList, Double.fin (-5)⟩])] ∧
      (statistics [⟨"2000".toList, Double.fin (-5)⟩]).max_emission = Double.fin (-1) ∧
      (statistics [⟨"2000".toList, Double.fin (-5)⟩]).max_year = [] ∧
      (statistics [⟨"2000".toList, Double.fin (-5)⟩]).min_emission = Double.fin (-5) ∧
      (statistics [⟨"2000".toList, Double.fin (-5)⟩]).min_year = "2000".toList := by
  decide!

/-- C4 fails on the code: `min_emission` starts at 1e9 and is replaced only by a
smaller value. For the file whose only data row is
`Kenya,KEN,2000,a,b,2000000000`, the sequence of Kenya has the single value 2e9,
but `analyzeCountry` reports the minimum 1e9 with an empty year label, while the
maximum is 2e9 in 2000. -/
theorem C4_min_seed_is_reported :
    parseCSV (some "country,code,year,a,b,co2\nKenya,KEN,2000,a,b,2000000000\n".toList) [] =
        Run.returned [("Kenya".toList, [⟨"2000".toList, Double.fin 2000000000⟩])] ∧
      (statistics [⟨"2000".toList, Double.fin 2000000000⟩]).min_emission =
        Double.fin 1000000000 ∧
      (statistics [⟨"2000".toList, Double.fin 2000000000⟩]).min_year = [] ∧
      (statistics [⟨"2000".toList, Double.fin 2000000000⟩]).max_emission =
        Double.fin 2000000000 ∧
      (statistics [⟨"2000".toList, Double.fin 2000000000⟩]).max_year = "2000".toList := by
  decide!

/-- C5: when `analyzeCountry` finds a non-empty sequence of `n` records with
finite values, read exactly, the statistics it displays and hands to
`generateReport` have as average the sum of the values divided by `n`, and as
standard deviation the square root of the sum of the squared differences to
that average divided by `n` (the divisor is `n`, not `n - 1`); that square root
is a real number whose square is the quotient, and it is 0 for a single
record. -/
theorem C5_average_and_population_stddev (writable : Bool) (country : CppString)
    (data : CountryTable) (w : World) (l : List (CppString × ℚ)) (hl : l ≠ [])
    (hf : find country data = some (records l)) :
    ∃ stats : Statistics,
      analyzeCountry writable country data w =
          generateReport writable country (records l) stats
            ⟨w.console ++ [Event.tableHeader country] ++ (records l).map Event.tableRow
              ++ [Event.statisticsBlock country stats], w.report⟩ ∧
        stats.average = Double.fin ((l.map Prod.snd).sum / (l.length : ℚ)) ∧
        stats.stddev =
          Double.Root.sqrtOf
            ((l.map (fun p => (p.2 - (l.map Prod.snd).sum / (l.length : ℚ)) ^ 2)).sum
              / (l.length : ℚ)) ∧
        stats.stddev.toReal =
          some (Real.sqrt
            (((l.map (fun p => (p.2 - (l.map Prod.snd).sum / (l.length : ℚ)) ^ 2)).sum
              / (l.length : ℚ) : ℚ) : ℝ)) ∧
        Real.sqrt
            (((l.map (fun p => (p.2 - (l.map Prod.snd).sum / (l.length : ℚ)) ^ 2)).sum
              / (l.length : ℚ) : ℚ) : ℝ) ^ 2 =
          (((l.map (fun p => (p.2 - (l.map Prod.snd).sum / (l.length : ℚ)) ^ 2)).sum
              / (l.length : ℚ) : ℚ) : ℝ) ∧
        (l.length = 1 →
          stats.stddev = Double.Root.sqrtOf 0 ∧ stats.stddev.toReal = some 0) := by
  have h1 := average_records l hl
  have h2 := sqrtArgument_records l hl
  have hnn : 0 ≤ (l.map (fun p => (p.2 - (l.map Prod.snd).sum / (l.length : ℚ)) ^ 2)).sum
      / (l.length : ℚ) :=
    div_nonneg (sum_squares_nonneg _ l) (Nat.cast_nonneg _)
  have hsd : (statistics (records l)).stddev =
      Double.Root.sqrtOf
        ((l.map (fun p => (p.2 - (l.map Prod.snd).sum / (l.length : ℚ)) ^ 2)).sum
          / (l.length : ℚ)) := by
    simp only [statistics, h2, Double.sqrt, hnn, if_true]
  refine ⟨statistics (records l), ?_, ?_, hsd, ?_, ?_, ?_⟩
  · simp only [analyzeCountry, hf]
  · simp only [statistics, h1]
  · rw [hsd]
    rfl
  · apply Real.sq_sqrt
    exact_mod_cast hnn
  · intro hone
    obtain ⟨p, rfl⟩ := List.length_eq_one.mp hone
    rw [hsd]
    simp [Double.Root.toReal]

/-- C5 on a table that holds the values 10, 20, 30 under `Kenya`: the average
displayed and reported is 20 and the standard deviation is the square root of
200/3. -/
theorem C5_average_and_population_stddev_witness :
    find "Kenya".toList [("Kenya".toList,
        records [("2000".toList, 10), ("2001".toList, 20), ("2002".toList, 30)])] =
      some (records [("2000".toList, 10), ("2001".toList, 20), ("2002".toList, 30)]) ∧
    analyzeCountry true "Kenya".toList [("Kenya".toList,
        records [("2000".toList, 10), ("2001".toList, 20), ("2002".toList, 30)])] ⟨[], none⟩ =
      ⟨[Event.tableHeader "Kenya".toList,
          Event.tableRow ⟨"2000".toList, Double.fin 10⟩,
          Event.tableRow ⟨"2001".toList, Double.fin 20⟩,
          Event.tableRow ⟨"2002".toList, Double.fin 30⟩,
          Event.statisticsBlock "Kenya".toList
            ⟨Double.fin 20, Double.Root.sqrtOf (200 / 3), Double.fin 30, "2002".toList,
              Double.fin 10, "2000".toList⟩,
          Event.reportSaved],
        some ⟨"Kenya".toList,
          records [("2000".toList, 10), ("2001".toList, 20), ("2002".toList, 30)],
          ⟨Double.fin 20, Double.Root.sqrtOf (200 / 3), Double.fin 30, "2002".toList,
            Double.fin 10, "2000".toList⟩⟩⟩ ∧
    ∃ stats : Statistics,
      analyzeCountry true "Kenya".toList [("Kenya".toList,
          records [("2000".toList, 10), ("2001".toList, 20), ("2002".toList, 30)])]
          ⟨[], none⟩ =
        generateReport true "Kenya".toList
          (records [("2000".toList, 10), ("2001".toList, 20), ("2002".toList, 30)]) stats
          ⟨[] ++ [Event.tableHeader "Kenya".toList] ++
            (records [("2000".toList, 10), ("2001".toList, 20),
              ("2002".toList, 30)]).map Event.tableRow
            ++ [Event.statisticsBlock "Kenya".toList stats], none⟩ ∧
      stats.average = Double.fin 20 ∧
      stats.stddev = Double.Root.sqrtOf (200 / 3) ∧
      stats.stddev.toReal = some (Real.sqrt (((200 / 3 : ℚ)) : ℝ)) ∧
      Real.sqrt (((200 / 3 : ℚ)) : ℝ) ^ 2 = (((200 / 3 : ℚ)) : ℝ) := by
  refine ⟨by decide!, by decide!, ?_⟩
  have h := C5_average_and_population_stddev true "Kenya".toList
    [("Kenya".toList, records [("2000".toList, 10), ("2001".toList, 20), ("2002".toList, 30)])]
    ⟨[], none⟩ [("2000".toList, 10), ("2001".toList, 20), ("2002".toList, 30)] (by simp)
    (by decide!)
  have e1 : (([("2000".toList, 10), ("2001".toList, 20), ("2002".toList, 30)] :
      List (CppString × ℚ)).map Prod.snd).sum /
        ((([("2000".toList, 10), ("2001".toList, 20), ("2002".toList, 30)] :
          List (CppString × ℚ)).length : ℕ) : ℚ) = 20 := by
    norm_num
  have e2 : (([("2000".toList, 10), ("2001".toList, 20), ("2002".toList, 30)] :
      List (CppString × ℚ)).map (fun p => (p.2 - 20) ^ 2)).sum /
        ((([("2000".toList, 10), ("2001".toList, 20), ("2002".toList, 30)] :
          List (CppString × ℚ)).length : ℕ) : ℚ) = 200 / 3 := by
    norm_num
  rw [e1, e2] at h
  obtain ⟨stats, ha, hb, hc, hd, he, _⟩ := h
  exact ⟨stats, ha, hb, hc, hd, he⟩

/-- C7: for every table and every selection that is not exactly a key of it,
`analyzeCountry` only reports that the country is not found: it prints no
statistics and leaves `report.txt` as it was; and a run of `main` that reaches
the selection with such an entry prints the countries, the prompt and the
not-found message and ends with exit code 0, the report file unchanged. -/
theorem C7_unknown_country_is_reported (data : CountryTable) (country : CppString)
    (hkey : ∀ e ∈ data, e.1 ≠ country) :
    (∀ (writable : Bool) (w : World),
        analyzeCountry writable country data w =
          ⟨w.console ++ [Event.countryNotFound], w.report⟩) ∧
      ∀ (content stdin : List Char) (writable : Bool) (w : World),
        parseCSV (some content) [] = Run.returned data → data ≠ [] →
        (getline (IStream.open stdin) [] '\n').2 = country →
        main ⟨true, some content, stdin, writable⟩ w =
          Run.returned (0, ⟨w.console ++ [Event.welcome,
            Event.availableCountries (countrySet data), Event.prompt,
            Event.countryNotFound, Event.thanks], w.report⟩) := by
  have hf := find_none_of_not_key country data hkey
  constructor
  · intro writable w
    simp only [analyzeCountry, hf]
  · intro content stdin writable w hp hne hsel
    have hemp : data.isEmpty = false := by
      cases data with
      | nil => exact absurd rfl hne
      | cons a b => rfl
    simp only [main, hp, hemp, hsel, analyzeCountry, hf]
    simp

/-- C7 on a file whose rows name Peru before Kenya and the entry `kenya`, which
differs from the key `Kenya` by the case of a letter: the countries are listed
in increasing order, the entry is not found and the exit code is 0. -/
theorem C7_unknown_country_is_reported_witness :
    (∀ e ∈ [("Peru".toList, [(⟨"2000".toList, Double.fin 7⟩ : EmissionData)]),
          ("Kenya".toList, [(⟨"2000".toList, Double.fin (3 / 2)⟩ : EmissionData)])],
        e.1 ≠ "kenya".toList) ∧
      main ⟨true, some ("country,code,year,a,b,co2\nPeru,PER,2000,a,b,7\n" ++
            "Kenya,KEN,2000,a,b,1.5\n").toList, "kenya\n".toList, true⟩ ⟨[], none⟩ =
        Run.returned (0, ⟨[Event.welcome,
          Event.availableCountries ["Kenya".toList, "Peru".toList],
          Event.prompt, Event.countryNotFound, Event.thanks], none⟩) :=
  ⟨by decide!,
    (C7_unknown_country_is_reported
      [("Peru".toList, [⟨"2000".toList, Double.fin 7⟩]),
        ("Kenya".toList, [⟨"2000".toList, Double.fin (3 / 2)⟩])] "kenya".toList
      (by decide!)).2
      ("country,code,year,a,b,co2\nPeru,PER,2000,a,b,7\n" ++
        "Kenya,KEN,2000,a,b,1.5\n").toList "kenya\n".toList true
      ⟨[], none⟩ (by decide!) (by decide!) (by decide!)⟩

/-- C8, as stated, fails: on a table that holds the key `Kenya` with an empty
sequence, `analyzeCountry` raises no error; it divides by the count 0, which
makes the average and the value under the square root NaN, hence the standard
deviation NaN too, keeps -1 and 1e9 as maximum and minimum with empty year
labels, prints these statistics and writes them to the report. -/
theorem C8_empty_sequence_gives_nan :
    average [] = Double.nan ∧ sqrtArgument [] = Double.nan ∧
      statistics [] =
        ⟨Double.nan, Double.Root.nan, Double.fin (-1), [], Double.fin 1000000000, []⟩ ∧
      analyzeCountry true "Kenya".toList [("Kenya".toList, [])] ⟨[], none⟩ =
        ⟨[Event.tableHeader "Kenya".toList,
            Event.statisticsBlock "Kenya".toList
              ⟨Double.nan, Double.Root.nan, Double.fin (-1), [],
                Double.fin 1000000000, []⟩,
            Event.reportSaved],
          some ⟨"Kenya".toList, [],
            ⟨Double.nan, Double.Root.nan, Double.fin (-1), [],
              Double.fin 1000000000, []⟩⟩⟩ := by
  decide!

/-- C8, amended: when `analyzeCountry` finds an empty record sequence under the
selected key there is no error outcome: the average and the value under the
square root are NaN (zero divided by the zero count), so the standard deviation
is NaN, the maximum and the minimum are the initial values -1 and 1e9 with
empty year labels, and these statistics are displayed and handed to
`generateReport`. -/
theorem C8_empty_sequence_is_analyzed (writable : Bool) (country : CppString)
    (data : CountryTable) (w : World) (h : find country data = some []) :
    average [] = Double.nan ∧ sqrtArgument [] = Double.nan ∧
      analyzeCountry writable country data w =
        generateReport writable country []
          ⟨Double.nan, Double.Root.nan, Double.fin (-1), [], Double.fin 1000000000, []⟩
          ⟨w.console ++ [Event.tableHeader country,
            Event.statisticsBlock country
              ⟨Double.nan, Double.Root.nan, Double.fin (-1), [],
                Double.fin 1000000000, []⟩],
            w.report⟩ := by
  have hs : statistics [] =
      ⟨Double.nan, Double.Root.nan, Double.fin (-1), [], Double.fin 1000000000, []⟩ := by
    decide!
  refine ⟨by decide!, by decide!, ?_⟩
  simp only [analyzeCountry, h, hs]
  simp

/-- C8, amended, on a table that holds `Kenya` with an empty sequence, the
report file not being writable. -/
theorem C8_empty_sequence_is_analyzed_witness :
    find "Kenya".toList [("Kenya".toList, [])] = some [] ∧
      (average [] = Double.nan ∧ sqrtArgument [] = Double.nan ∧
        analyzeCountry false "Kenya".toList [("Kenya".toList, [])] ⟨[], none⟩ =
          generateReport false "Kenya".toList []
            ⟨Double.nan, Double.Root.nan, Double.fin (-1), [], Double.fin 1000000000, []⟩
            ⟨[] ++ [Event.tableHeader "Kenya".toList,
              Event.statisticsBlock "Kenya".toList
                ⟨Double.nan, Double.Root.nan, Double.fin (-1), [],
                  Double.fin 1000000000, []⟩],
              none⟩) :=
  ⟨by decide!,
    C8_empty_sequence_is_analyzed false "Kenya".toList [("Kenya".toList, [])] ⟨[], none⟩
      (by decide!)⟩

end CarbonFootprint
